import Mathlib

/-!
Verification of the hash-prefix matching and sharded-storage subsystem
(`db_utils.py`) of the Safe-Browsing-DNSBL-Generator repository.

The Python module is shallowly embedded: SQLite tables become Lean lists,
machine integers become `Nat` with explicit reductions mod 2^32 where the
SHA-256 arithmetic overflows, and the Python functions become pure Lean
functions on an explicit database state.  Operations that can raise an
uncaught Python exception return `Except String`.
-/

/-! ## SHA-256 (model of `hashlib.sha256`)

`compute_url_hash` calls `hashlib.sha256(...).digest()`.  The hash function
is embedded from the FIPS 180-4 specification of SHA-256, operating on a
list of bytes (each a `Nat < 256`) and producing the 32-byte digest. -/

def w32 (n : Nat) : Nat := n % 4294967296

def rotr32 (n x : Nat) : Nat := w32 ((x >>> n) ||| (x <<< (32 - n)))

def bigSigma0 (x : Nat) : Nat := (rotr32 2 x) ^^^ (rotr32 13 x) ^^^ (rotr32 22 x)

def bigSigma1 (x : Nat) : Nat := (rotr32 6 x) ^^^ (rotr32 11 x) ^^^ (rotr32 25 x)

def smallSigma0 (x : Nat) : Nat := (rotr32 7 x) ^^^ (rotr32 18 x) ^^^ (x >>> 3)

def smallSigma1 (x : Nat) : Nat := (rotr32 17 x) ^^^ (rotr32 19 x) ^^^ (x >>> 10)

def shaCh (x y z : Nat) : Nat := (x &&& y) ^^^ ((w32 (4294967295 - x)) &&& z)

def shaMaj (x y z : Nat) : Nat := (x &&& y) ^^^ (x &&& z) ^^^ (y &&& z)

def shaK : List Nat :=
  [1116352408, 1899447441, 3049323471, 3921009573, 961987163, 1508970993,
   2453635748, 2870763221, 3624381080, 310598401, 607225278, 1426881987,
   1925078388, 2162078206, 2614888103, 3248222580, 3835390401, 4022224774,
   264347078, 604807628, 770255983, 1249150122, 1555081692, 1996064986,
   2554220882, 2821834349, 2952996808, 3210313671, 3336571891, 3584528711,
   113926993, 338241895, 666307205, 773529912, 1294757372, 1396182291,
   1695183700, 1986661051, 2177026350, 2456956037, 2730485921, 2820302411,
   3259730800, 3345764771, 3516065817, 3600352804, 4094571909, 275423344,
   430227734, 506948616, 659060556, 883997877, 958139571, 1322822218,
   1537002063, 1747873779, 1955562222, 2024104815, 2227730452, 2361852424,
   2428436474, 2756734187, 3204031479, 3329325298]

structure Sha256State where
  a : Nat
  b : Nat
  c : Nat
  d : Nat
  e : Nat
  f : Nat
  g : Nat
  h : Nat
deriving Repr, DecidableEq

def shaInit : Sha256State :=
  ⟨1779033703, 3144134277, 1013904242, 2773480762,
   1359893119, 2600822924, 528734635, 1541459225⟩

/-- Group a byte list into 32-bit big-endian words (4 bytes per word). -/
def bytesToWords : List Nat → List Nat
  | b0 :: b1 :: b2 :: b3 :: rest =>
      (b0 * 16777216 + b1 * 65536 + b2 * 256 + b3) :: bytesToWords rest
  | _ => []

/-- Extend the 16-word message schedule by `n` further words. -/
def extendSchedule : List Nat → Nat → List Nat
  | ws, 0 => ws
  | ws, n + 1 =>
      let t := w32 (smallSigma1 (ws.getD (ws.length - 2) 0) +
                    ws.getD (ws.length - 7) 0 +
                    smallSigma0 (ws.getD (ws.length - 15) 0) +
                    ws.getD (ws.length - 16) 0)
      extendSchedule (ws ++ [t]) n

def compressStep (st : Sha256State) (kw : Nat × Nat) : Sha256State :=
  let t1 := w32 (st.h + bigSigma1 st.e + shaCh st.e st.f st.g + kw.1 + kw.2)
  let t2 := w32 (bigSigma0 st.a + shaMaj st.a st.b st.c)
  ⟨w32 (t1 + t2), st.a, st.b, st.c, w32 (st.d + t1), st.e, st.f, st.g⟩

def compressBlock (st : Sha256State) (block : List Nat) : Sha256State :=
  let ws := extendSchedule (bytesToWords block) 48
  let r := (shaK.zip ws).foldl compressStep st
  ⟨w32 (st.a + r.a), w32 (st.b + r.b), w32 (st.c + r.c), w32 (st.d + r.d),
   w32 (st.e + r.e), w32 (st.f + r.f), w32 (st.g + r.g), w32 (st.h + r.h)⟩

/-- Split a byte list into 64-byte chunks. -/
def toChunks : List Nat → List (List Nat)
  | [] => []
  | b :: rest =>
      (b :: rest).take 64 :: toChunks ((b :: rest).drop 64)
termination_by l => l.length
decreasing_by
  simp only [List.length_drop, List.length_cons]
  omega

/-- SHA-256 padding: append 0x80, zeros, then the 64-bit big-endian bit length. -/
def padMessage (msg : List Nat) : List Nat :=
  let len := msg.length
  let zeros := (119 - len % 64) % 64
  let bitLen := len * 8
  msg ++ [128] ++ List.replicate zeros 0 ++
    [bitLen / 72057594037927936 % 256, bitLen / 281474976710656 % 256,
     bitLen / 1099511627776 % 256, bitLen / 4294967296 % 256,
     bitLen / 16777216 % 256, bitLen / 65536 % 256,
     bitLen / 256 % 256, bitLen % 256]

/-- Big-endian bytes of a 32-bit word. -/
def wordBytes (wo : Nat) : List Nat :=
  [wo / 16777216 % 256, wo / 65536 % 256, wo / 256 % 256, wo % 256]

def sha256 (msg : List Nat) : List Nat :=
  let fin := (toChunks (padMessage msg)).foldl compressBlock shaInit
  wordBytes fin.a ++ wordBytes fin.b ++ wordBytes fin.c ++ wordBytes fin.d ++
  wordBytes fin.e ++ wordBytes fin.f ++ wordBytes fin.g ++ wordBytes fin.h

/-! ## UTF-8 encoding (model of Python `str.encode()`) -/

/-- UTF-8 encoding of a Unicode code point, as bytes. -/
def utf8EncodeCodepoint (c : Nat) : List Nat :=
  if c < 128 then [c]
  else if c < 2048 then [192 + c / 64, 128 + c % 64]
  else if c < 65536 then [224 + c / 4096, 128 + c / 64 % 64, 128 + c % 64]
  else [240 + c / 262144, 128 + c / 4096 % 64, 128 + c / 64 % 64, 128 + c % 64]

/-- UTF-8 bytes of a string, modelling Python `str.encode()`. -/
def strBytes (s : String) : List Nat :=
  s.data.foldr (fun c acc => utf8EncodeCodepoint c.toNat ++ acc) []

/-! ## `compute_url_hash` -/

/-- `compute_url_hash(url)`: `sha256(f"{url}/".encode()).digest()`. -/
def compute_url_hash (url : String) : List Nat :=
  sha256 (strBytes (url ++ "/"))

/-! ## Database state

The SQLite database of `db_utils.py` holds:
  * `urls_filenames (id integer PRIMARY KEY, urls_filename text UNIQUE)`;
  * one table `urls_{id}` per registered filename id, with columns
    `(url text UNIQUE, lastListed, lastGoogleMalicious, lastYandexMalicious,
      lastReachable, hash blob)`;
  * `maliciousHashPrefixes (hashPrefix blob, prefixSize integer, vendor text)`.
Tables are embedded as lists in row (rowid/insertion) order. -/

structure UrlRecord where
  url : String
  lastListed : Option Int
  lastGoogleMalicious : Option Int
  lastYandexMalicious : Option Int
  lastReachable : Option Int
  hash : List Nat
deriving Repr, DecidableEq

structure PrefixEntry where
  hashPrefix : List Nat
  prefixSize : Nat
  vendor : String
deriving Repr, DecidableEq

structure DBState where
  urls_filenames : List (Nat × String)
  urls_tables : List (Nat × List UrlRecord)
  maliciousHashPrefixes : List PrefixEntry
deriving Repr, DecidableEq

/-- First row of `SELECT id from urls_filenames where urls_filename=? LIMIT 1`. -/
def lookupFilenameId (s : DBState) (filename : String) : Option Nat :=
  ((s.urls_filenames.filter (fun p => p.2 == filename)).head?).map (fun p => p.1)

/-- The `urls_{id}` table contents, if that table exists. -/
def getTable (s : DBState) (id : Nat) : Option (List UrlRecord) :=
  ((s.urls_tables.filter (fun p => p.1 == id)).head?).map (fun p => p.2)

/-- Apply `f` to the `urls_{id}` table (no effect if the table is absent). -/
def modifyTable (s : DBState) (id : Nat) (f : List UrlRecord → List UrlRecord) :
    DBState :=
  { s with urls_tables :=
      s.urls_tables.map (fun p => if p.1 == id then (p.1, f p.2) else p) }

/-- `create_urls_table(table_name)`: `CREATE TABLE IF NOT EXISTS urls_{id}`. -/
def create_urls_table (id : Nat) (s : DBState) : DBState :=
  if (getTable s id).isSome then s
  else { s with urls_tables := s.urls_tables ++ [(id, [])] }

/-- `get_urls_tables()`: the ids of all tables `urls_{id}`, one per row of
`urls_filenames`, in row order. -/
def get_urls_tables (s : DBState) : List Nat :=
  s.urls_filenames.map (fun p => p.1)

/-! ## `create_filenames_table` (Shard Registry registration) -/

/-- SQLite rowid assignment for `INSERT ... VALUES (NULL, name)` into a table
with an `integer PRIMARY KEY`: one more than the largest existing id. -/
def nextRowId (rows : List (Nat × String)) : Nat :=
  (rows.map (fun p => p.1)).foldl max 0 + 1

/-- One `INSERT OR IGNORE into urls_filenames (id,urls_filename) VALUES (NULL, name)`. -/
def insertOrIgnoreFilename (rows : List (Nat × String)) (name : String) :
    List (Nat × String) :=
  if rows.any (fun p => p.2 == name) then rows
  else rows ++ [(nextRowId rows, name)]

/-- `create_filenames_table(urls_filenames)`: idempotent bulk registration. -/
def create_filenames_table (names : List String) (s : DBState) : DBState :=
  { s with urls_filenames := names.foldl insertOrIgnoreFilename s.urls_filenames }

/-! ## `add_URLs` (URL Shard Store upsert) -/

/-- One row of the `INSERT ... ON CONFLICT(url) DO UPDATE SET
lastListed=excluded.lastListed` statement, for one url. -/
def upsertRow (tbl : List UrlRecord) (url : String) (t : Int) : List UrlRecord :=
  if tbl.any (fun r => r.url == url) then
    tbl.map (fun r => if r.url == url then { r with lastListed := some t } else r)
  else
    tbl ++ [⟨url, some t, none, none, none, compute_url_hash url⟩]

/-- `add_URLs(urls, updateTime, filename)`.  An unregistered filename raises
`IndexError` (the subscript `[0]` on an empty list), which is not an
`apsw.Error` and so escapes the `except` clause; no table row is touched in
that case.  Otherwise every url is inserted, or its `lastListed` refreshed. -/
def add_URLs (urls : List String) (updateTime : Int) (filename : String)
    (s : DBState) : Except String DBState :=
  match lookupFilenameId s filename with
  | none => .error "IndexError: list index out of range"
  | some id =>
      let s1 := create_urls_table id s
      .ok (modifyTable s1 id (fun tbl =>
        urls.foldl (fun acc u => upsertRow acc u updateTime) tbl))

/-! ## `add_maliciousHashPrefixes` (Hash-Prefix Index replacement) -/

/-- The row the `INSERT INTO maliciousHashPrefixes` statement builds for one
prefix: `(hashPrefix, len(hashPrefix), vendor)`. -/
def mkPrefixRow (vendor : String) (p : List Nat) : PrefixEntry :=
  ⟨p, p.length, vendor⟩

/-- `add_maliciousHashPrefixes(hash_prefixes, vendor)`: `DELETE` every row of
the vendor, then insert one row per given prefix. -/
def add_maliciousHashPrefixes (hash_prefixes : List (List Nat)) (vendor : String)
    (s : DBState) : DBState :=
  { s with maliciousHashPrefixes :=
      s.maliciousHashPrefixes.filter (fun e => !(e.vendor == vendor)) ++
      hash_prefixes.map (mkPrefixRow vendor) }

/-! ## `identify_suspected_urls` (Suspect Matcher) -/

/-- `SELECT DISTINCT prefixSize from maliciousHashPrefixes WHERE vendor = ?`. -/
def distinctPrefixSizes (s : DBState) (vendor : String) : List Nat :=
  ((s.maliciousHashPrefixes.filter (fun e => e.vendor == vendor)).map
    (fun e => e.prefixSize)).dedup

/-- One inner query: `SELECT url from urls_{id} INNER JOIN maliciousHashPrefixes
WHERE substring(urls_{id}.hash,1,?) = maliciousHashPrefixes.hashPrefix AND
maliciousHashPrefixes.vendor = ?`, with the prefix size bound to `?`.  SQLite
`substring(blob,1,n)` is `List.take n`.  Note the join does NOT constrain
`maliciousHashPrefixes.prefixSize`; one output row is produced per matching
(url row, prefix row) pair. -/
def shardQuery (tbl : List UrlRecord) (prefixes : List PrefixEntry)
    (vendor : String) (size : Nat) : List String :=
  tbl.flatMap (fun r =>
    (prefixes.filter (fun e =>
      r.hash.take size == e.hashPrefix && e.vendor == vendor)).map
      (fun _ => r.url))

/-- The loop of `identify_suspected_urls` over the shard tables.  A missing
`urls_{id}` table makes the `SELECT` raise an `apsw.Error` ("no such table"),
which the function's `except` clause catches and logs; the urls accumulated so
far are then returned and the remaining shards are never queried. -/
def identifyLoop (s : DBState) (vendor : String) (sizes : List Nat) :
    List Nat → List String
  | [] => []
  | id :: rest =>
      match getTable s id with
      | none => []
      | some tbl =>
          sizes.flatMap (fun size =>
            shardQuery tbl s.maliciousHashPrefixes vendor size) ++
          identifyLoop s vendor sizes rest

/-- `identify_suspected_urls(vendor)`. -/
def identify_suspected_urls (vendor : String) (s : DBState) : List String :=
  identifyLoop s vendor (distinctPrefixSizes s vendor) (get_urls_tables s)

/-! ## Bulk Status Updater: `update_malicious_URLs`, `update_activity_URLs` -/

/-- One per-shard `UPDATE urls_{id} SET col = ? WHERE url IN (?, ..., ?)`.
With an empty url list the `IN ()` list is empty, which SQLite accepts and
which matches no row. -/
def updateWhereIn (urls : List String) (upd : UrlRecord → UrlRecord)
    (tbl : List UrlRecord) : List UrlRecord :=
  tbl.map (fun r => if urls.contains r.url then upd r else r)

/-- Fan the update out over every registered shard. A shard whose table is
missing makes its `UPDATE` fail; that per-shard error is caught, logged and
the loop continues — `modifyTable` is a no-op there either way. -/
def updateAllShards (urls : List String) (upd : UrlRecord → UrlRecord)
    (s : DBState) : DBState :=
  (get_urls_tables s).foldl
    (fun acc id => modifyTable acc id (updateWhereIn urls upd)) s

/-- `update_malicious_URLs(malicious_urls, updateTime, vendor)`.  An unknown
vendor raises `ValueError` before any shard is written. -/
def update_malicious_URLs (malicious_urls : List String) (updateTime : Int)
    (vendor : String) (s : DBState) : Except String DBState :=
  if vendor == "Google" then
    .ok (updateAllShards malicious_urls
      (fun r => { r with lastGoogleMalicious := some updateTime }) s)
  else if vendor == "Yandex" then
    .ok (updateAllShards malicious_urls
      (fun r => { r with lastYandexMalicious := some updateTime }) s)
  else .error "ValueError: vendor must be \"Google\" or \"Yandex\""

/-- `update_activity_URLs(alive_urls, updateTime)`. -/
def update_activity_URLs (alive_urls : List String) (updateTime : Int)
    (s : DBState) : DBState :=
  updateAllShards alive_urls
    (fun r => { r with lastReachable := some updateTime }) s

/-- The queries issued by `update_malicious_URLs` (and, identically shaped,
by `update_activity_URLs`): one `UPDATE` per registered shard table, whose
`IN` list is `','.join('?'*len(urls))` — i.e. `len(urls)` placeholders —
with the urls bound to them. -/
structure IssuedUpdate where
  tableId : Nat
  inListPlaceholders : Nat
  boundUrls : List String
deriving Repr, DecidableEq

def update_URLs_issued (urls : List String) (s : DBState) : List IssuedUpdate :=
  (get_urls_tables s).map (fun id => ⟨id, urls.length, urls⟩)

/-! ## Lemmas about the hash codec -/

theorem sha256_length (msg : List Nat) : (sha256 msg).length = 32 := by
  simp [sha256, wordBytes]

theorem strBytes_append (a b : String) :
    strBytes (a ++ b) = strBytes a ++ strBytes b := by
  simp [strBytes, String.data_append, List.foldr_append]
  induction a.data with
  | nil => simp
  | cons c cs ih => simp [ih, List.append_assoc]

theorem strBytes_slash : strBytes "/" = [47] := by decide

theorem compute_url_hash_eq (u : String) :
    compute_url_hash u = sha256 (strBytes u ++ [47]) := by
  rw [compute_url_hash, strBytes_append, strBytes_slash]

theorem compute_url_hash_length (u : String) :
    (compute_url_hash u).length = 32 := sha256_length _

/-- C5: `compute_url_hash` is a deterministic, pure, total function on all
strings; it hashes the url with a single '/' byte (0x2f) appended, and its
output is the fixed-size (32-byte) SHA-256 digest. -/
theorem C5_hash_codec (u : String) :
    compute_url_hash u = compute_url_hash u ∧
    compute_url_hash u = sha256 (strBytes u ++ [47]) ∧
    (compute_url_hash u).length = 32 :=
  ⟨rfl, compute_url_hash_eq u, compute_url_hash_length u⟩

/-- C10: every digest has exactly 32 bytes; hence truncating a stored hash to
any length of 32 or more returns the full hash, and a vendor prefix longer
than 32 bytes can never equal any truncation of such a hash. -/
theorem C10_digest_32_bytes (u : String) (L : Nat) (p : List Nat) :
    (compute_url_hash u).length = 32 ∧
    (32 ≤ L → (compute_url_hash u).take L = compute_url_hash u) ∧
    (32 < p.length → (compute_url_hash u).take L ≠ p) := by
  refine ⟨compute_url_hash_length u, fun hL => ?_, fun hp heq => ?_⟩
  · exact List.take_of_length_le (by rw [compute_url_hash_length]; exact hL)
  · have hlen : ((compute_url_hash u).take L).length ≤ 32 := by
      rw [List.length_take, compute_url_hash_length]
      exact Nat.min_le_right _ _
    rw [heq] at hlen
    omega

/-- Witness for C10 at the concrete input `"a"`, length 33, and a 33-byte
candidate prefix. -/
theorem C10_digest_32_bytes_witness :
    (compute_url_hash "a").take 33 = compute_url_hash "a" ∧
    (compute_url_hash "a").take 33 ≠ List.replicate 33 0 :=
  ⟨(C10_digest_32_bytes "a" 33 (List.replicate 33 0)).2.1 (by decide),
   (C10_digest_32_bytes "a" 33 (List.replicate 33 0)).2.2 (by decide)⟩

/-! ## Lemmas about the Hash-Prefix Index -/

theorem mkPrefixRow_injective (vendor : String) :
    Function.Injective (mkPrefixRow vendor) :=
  fun _ _ h => congrArg PrefixEntry.hashPrefix h

theorem filter_vendor_mkRows (vendor : String) (P : List (List Nat)) :
    (P.map (mkPrefixRow vendor)).filter (fun e => e.vendor == vendor) =
      P.map (mkPrefixRow vendor) := by
  rw [List.filter_eq_self]
  intro e he
  rcases List.mem_map.mp he with ⟨p, _, rfl⟩
  simp [mkPrefixRow]

theorem filter_not_vendor_mkRows (vendor : String) (P : List (List Nat)) :
    (P.map (mkPrefixRow vendor)).filter (fun e => !(e.vendor == vendor)) = [] := by
  rw [List.filter_eq_nil_iff]
  intro e he
  rcases List.mem_map.mp he with ⟨p, _, rfl⟩
  simp [mkPrefixRow]

theorem filter_bnot_self (l : List PrefixEntry) (V : String) :
    l.filter (fun e => !(e.vendor == V) && !(e.vendor == V)) =
      l.filter (fun e => !(e.vendor == V)) := by
  apply List.filter_congr
  intro e _
  cases h : e.vendor == V <;> simp

theorem add_prefixes_twice (s : DBState) (V : String) (P1 P2 : List (List Nat)) :
    (add_maliciousHashPrefixes P2 V (add_maliciousHashPrefixes P1 V s)
      ).maliciousHashPrefixes =
    s.maliciousHashPrefixes.filter (fun e => !(e.vendor == V)) ++
      P2.map (mkPrefixRow V) := by
  simp only [add_maliciousHashPrefixes, List.filter_append, List.filter_filter]
  rw [filter_bnot_self, filter_not_vendor_mkRows, List.append_nil]

/-- C3: replacing a vendor's prefixes with `P1` and then `P2` leaves exactly
one index row per prefix of `P2`, each with `prefixSize` equal to the prefix's
byte length, leaves every other vendor's rows unchanged, and makes the
distinct prefix sizes of `V` exactly the distinct byte lengths of `P2`. -/
theorem C3_replace_vendor_prefixes (s : DBState) (V : String)
    (P1 P2 : List (List Nat)) (hnd : P2.Nodup) :
    ((add_maliciousHashPrefixes P2 V (add_maliciousHashPrefixes P1 V s)
      ).maliciousHashPrefixes.filter (fun e => e.vendor == V) =
        P2.map (mkPrefixRow V)) ∧
    ((add_maliciousHashPrefixes P2 V (add_maliciousHashPrefixes P1 V s)
      ).maliciousHashPrefixes.filter (fun e => !(e.vendor == V)) =
        s.maliciousHashPrefixes.filter (fun e => !(e.vendor == V))) ∧
    (∀ p ∈ P2,
      (add_maliciousHashPrefixes P2 V (add_maliciousHashPrefixes P1 V s)
        ).maliciousHashPrefixes.count (mkPrefixRow V p) = 1) ∧
    (distinctPrefixSizes
        (add_maliciousHashPrefixes P2 V (add_maliciousHashPrefixes P1 V s)) V =
      (P2.map List.length).dedup) := by
  have hmain := add_prefixes_twice s V P1 P2
  have hfilterV :
      (add_maliciousHashPrefixes P2 V (add_maliciousHashPrefixes P1 V s)
        ).maliciousHashPrefixes.filter (fun e => e.vendor == V) =
        P2.map (mkPrefixRow V) := by
    rw [hmain, List.filter_append, filter_vendor_mkRows]
    have hnil : (s.maliciousHashPrefixes.filter
        (fun e => !(e.vendor == V))).filter (fun e => e.vendor == V) = [] := by
      rw [List.filter_filter, List.filter_eq_nil_iff]
      intro e _
      cases h : e.vendor == V <;> simp [h]
    rw [hnil, List.nil_append]
  refine ⟨hfilterV, ?_, ?_, ?_⟩
  · rw [hmain, List.filter_append, filter_not_vendor_mkRows,
      List.append_nil, List.filter_filter, filter_bnot_self]
  · intro p hp
    rw [hmain, List.count_append]
    have hzero : (s.maliciousHashPrefixes.filter
        (fun e => !(e.vendor == V))).count (mkPrefixRow V p) = 0 := by
      rw [List.count_eq_zero]
      intro hmem
      have hv := List.of_mem_filter hmem
      simp [mkPrefixRow] at hv
    rw [hzero, Nat.zero_add,
      List.count_map_of_injective P2 (mkPrefixRow V) (mkPrefixRow_injective V) p]
    exact List.count_eq_one_of_mem hnd hp
  · unfold distinctPrefixSizes
    rw [hfilterV, List.map_map]
    rfl

/-- Witness for C3 at a concrete state: a Google prefix and a Yandex prefix,
replacing Google's set twice. -/
theorem C3_replace_vendor_prefixes_witness :
    (((add_maliciousHashPrefixes [[7, 8], [9]] "Google"
        (add_maliciousHashPrefixes [[1, 2, 3]] "Google"
          ⟨[], [], [⟨[5], 1, "Yandex"⟩]⟩)
      ).maliciousHashPrefixes.filter (fun e => e.vendor == "Google") =
        [[7, 8], [9]].map (mkPrefixRow "Google")) ∧
     ((add_maliciousHashPrefixes [[7, 8], [9]] "Google"
        (add_maliciousHashPrefixes [[1, 2, 3]] "Google"
          ⟨[], [], [⟨[5], 1, "Yandex"⟩]⟩)
      ).maliciousHashPrefixes.filter (fun e => !(e.vendor == "Google")) =
        ([⟨[5], 1, "Yandex"⟩] : List PrefixEntry).filter
          (fun e => !(e.vendor == "Google"))) ∧
     (∀ p ∈ [[7, 8], [9]],
      (add_maliciousHashPrefixes [[7, 8], [9]] "Google"
        (add_maliciousHashPrefixes [[1, 2, 3]] "Google"
          ⟨[], [], [⟨[5], 1, "Yandex"⟩]⟩)
        ).maliciousHashPrefixes.count (mkPrefixRow "Google" p) = 1) ∧
     (distinctPrefixSizes
        (add_maliciousHashPrefixes [[7, 8], [9]] "Google"
          (add_maliciousHashPrefixes [[1, 2, 3]] "Google"
            ⟨[], [], [⟨[5], 1, "Yandex"⟩]⟩)) "Google" =
        ([[7, 8], [9]].map List.length).dedup)) :=
  C3_replace_vendor_prefixes ⟨[], [], [⟨[5], 1, "Yandex"⟩]⟩ "Google"
    [[1, 2, 3]] [[7, 8], [9]] (by decide)

/-! ## Lemmas about the Shard Registry -/

theorem insertOrIgnore_extends (rows : List (Nat × String)) (n : String) :
    ∃ d, insertOrIgnoreFilename rows n = rows ++ d ∧
      ∀ p ∈ d, p.2 = n ∧ ¬ p.2 ∈ rows.map (fun q => q.2) := by
  unfold insertOrIgnoreFilename
  by_cases h : rows.any (fun p => p.2 == n) = true
  · refine ⟨[], by simp [h], by simp⟩
  · refine ⟨[(nextRowId rows, n)], by simp [h], ?_⟩
    intro p hp
    rcases List.mem_singleton.mp hp with rfl
    refine ⟨rfl, fun hmem => h ?_⟩
    rcases List.mem_map.mp hmem with ⟨q, hq, hqn⟩
    exact List.any_eq_true.mpr ⟨q, hq, by simp [hqn]⟩

theorem create_filenames_extends (names : List String)
    (rows : List (Nat × String)) :
    ∃ extra, names.foldl insertOrIgnoreFilename rows = rows ++ extra ∧
      ∀ p ∈ extra, p.2 ∈ names ∧ ¬ p.2 ∈ rows.map (fun q => q.2) := by
  induction names generalizing rows with
  | nil => exact ⟨[], by simp, by simp⟩
  | cons n rest ih =>
      rcases insertOrIgnore_extends rows n with ⟨d, hd, hdp⟩
      rcases ih (rows ++ d) with ⟨extra, hextra, hextrap⟩
      refine ⟨d ++ extra, ?_, ?_⟩
      · rw [List.foldl_cons, hd, hextra, List.append_assoc]
      · intro p hp
        rcases List.mem_append.mp hp with hpd | hpe
        · exact ⟨by rw [(hdp p hpd).1]; exact List.mem_cons_self n rest,
            (hdp p hpd).2⟩
        · refine ⟨List.mem_cons_of_mem n (hextrap p hpe).1, fun hmem => ?_⟩
          apply (hextrap p hpe).2
          rw [List.map_append]
          exact List.mem_append_left _ hmem

theorem lookup_append_of_some (rows extra : List (Nat × String)) (n : String)
    (i : Nat)
    (h : ((rows.filter (fun p => p.2 == n)).head?).map (fun p => p.1) = some i) :
    (((rows ++ extra).filter (fun p => p.2 == n)).head?).map (fun p => p.1) =
      some i := by
  rw [List.filter_append, List.head?_append]
  cases hh : (rows.filter (fun p => p.2 == n)).head? with
  | none => rw [hh] at h; simp at h
  | some p =>
      rw [hh] at h
      simpa using h

/-- C8: registering source names is idempotent: a name already present keeps
its row (the old rows are a prefix of the new rows, so its resolved shard id
is unchanged), and the only rows ever added are for batch names that were not
yet registered — rows of names outside the batch are untouched. -/
theorem C8_register_idempotent (s : DBState) (names : List String)
    (n : String) (i : Nat) (hl : lookupFilenameId s n = some i) :
    lookupFilenameId (create_filenames_table names s) n = some i ∧
    ∃ extra, (create_filenames_table names s).urls_filenames =
        s.urls_filenames ++ extra ∧
      ∀ p ∈ extra, p.2 ∈ names ∧
        ¬ p.2 ∈ s.urls_filenames.map (fun q => q.2) := by
  rcases create_filenames_extends names s.urls_filenames with ⟨extra, hx, hxp⟩
  constructor
  · show ((((create_filenames_table names s).urls_filenames.filter
        (fun p => p.2 == n)).head?).map (fun p => p.1)) = some i
    show (((names.foldl insertOrIgnoreFilename s.urls_filenames).filter
        (fun p => p.2 == n)).head?).map (fun p => p.1) = some i
    rw [hx]
    exact lookup_append_of_some _ _ _ _ hl
  · exact ⟨extra, hx, hxp⟩

/-- Witness for C8: re-registering `"list1"` (together with a new name)
leaves its id `1` resolvable unchanged. -/
theorem C8_register_idempotent_witness :
    lookupFilenameId
      (create_filenames_table ["list1", "list2"] ⟨[(1, "list1")], [], []⟩)
      "list1" = some 1 ∧
    ∃ extra, (create_filenames_table ["list1", "list2"]
        ⟨[(1, "list1")], [], []⟩).urls_filenames = [(1, "list1")] ++ extra ∧
      ∀ p ∈ extra, p.2 ∈ ["list1", "list2"] ∧
        ¬ p.2 ∈ ([(1, "list1")] : List (Nat × String)).map (fun q => q.2) :=
  C8_register_idempotent ⟨[(1, "list1")], [], []⟩ ["list1", "list2"]
    "list1" 1 (by decide)

/-! ## Lemmas about `add_URLs` -/

/-- C9: `add_URLs` on a filename that was never registered raises
`IndexError` before inserting or updating any url row. -/
theorem C9_add_urls_unregistered (s : DBState) (urls : List String)
    (t : Int) (filename : String)
    (h : lookupFilenameId s filename = none) :
    add_URLs urls t filename s = .error "IndexError: list index out of range" := by
  simp [add_URLs, h]

/-- Witness for C9 on an empty registry. -/
theorem C9_add_urls_unregistered_witness :
    add_URLs ["http://evil.com/"] 100 "never-registered" ⟨[], [], []⟩ =
      .error "IndexError: list index out of range" :=
  C9_add_urls_unregistered ⟨[], [], []⟩ ["http://evil.com/"] 100
    "never-registered" (by decide)

theorem head_filter_map_table (id : Nat) (f : List UrlRecord → List UrlRecord) :
    ∀ l : List (Nat × List UrlRecord),
    (((l.map (fun p => if p.1 == id then (p.1, f p.2) else p)).filter
        (fun p => p.1 == id)).head?).map (fun p => p.2) =
    ((((l.filter (fun p => p.1 == id)).head?).map (fun p => p.2)).map f)
  | [] => rfl
  | p :: rest => by
      by_cases h : p.1 = id
      · simp [h]
      · simpa [h] using head_filter_map_table id f rest

theorem getTable_modifyTable (s : DBState) (id : Nat)
    (f : List UrlRecord → List UrlRecord) :
    getTable (modifyTable s id f) id = (getTable s id).map f :=
  head_filter_map_table id f s.urls_tables

theorem modifyTable_modifyTable (s : DBState) (id : Nat)
    (f g : List UrlRecord → List UrlRecord) (h : ∀ tbl, g (f tbl) = f tbl) :
    modifyTable (modifyTable s id f) id g = modifyTable s id f := by
  unfold modifyTable
  simp only [List.map_map]
  congr 1
  apply List.map_congr_left
  intro p _
  by_cases hp : p.1 == id
  · simp [Function.comp, hp, h]
  · simp [Function.comp, hp]

theorem modifyTable_urls_filenames (s : DBState) (id : Nat)
    (f : List UrlRecord → List UrlRecord) :
    (modifyTable s id f).urls_filenames = s.urls_filenames := rfl

theorem create_urls_table_of_isSome (s : DBState) (id : Nat)
    (h : (getTable s id).isSome) : create_urls_table id s = s := by
  simp [create_urls_table, h]

theorem upsertRow_any_self (tbl : List UrlRecord) (u : String) (t : Int) :
    (upsertRow tbl u t).any (fun r => r.url == u) = true := by
  unfold upsertRow
  by_cases h : tbl.any (fun r => r.url == u) = true
  · rw [if_pos h]
    rcases List.any_eq_true.mp h with ⟨r, hr, hru⟩
    refine List.any_eq_true.mpr ⟨_, List.mem_map_of_mem _ hr, ?_⟩
    simp [hru]
  · rw [if_neg h]
    exact List.any_eq_true.mpr ⟨_, List.mem_append_right _ (List.mem_singleton.mpr rfl), by simp⟩

theorem upsertRow_lastListed (tbl : List UrlRecord) (u : String) (t : Int)
    (r : UrlRecord) (hr : r ∈ upsertRow tbl u t) (hu : r.url = u) :
    r.lastListed = some t := by
  unfold upsertRow at hr
  by_cases h : tbl.any (fun r => r.url == u) = true
  · rw [if_pos h] at hr
    rcases List.mem_map.mp hr with ⟨r0, _, rfl⟩
    by_cases h0 : r0.url == u
    · simp [h0]
    · rw [if_neg h0] at hu ⊢
      exact absurd (by simp [hu]) h0
  · rw [if_neg h] at hr
    rcases List.mem_append.mp hr with hmem | hmem
    · exact absurd (List.any_eq_true.mpr ⟨r, hmem, by simp [hu]⟩) h
    · rw [List.mem_singleton.mp hmem]

theorem upsertRow_idem (tbl : List UrlRecord) (u : String) (t : Int) :
    upsertRow (upsertRow tbl u t) u t = upsertRow tbl u t := by
  conv_lhs => rw [upsertRow]
  rw [if_pos (upsertRow_any_self tbl u t)]
  conv_rhs => rw [← List.map_id (upsertRow tbl u t)]
  apply List.map_congr_left
  intro r hr
  by_cases h : r.url == u
  · rw [if_pos h]
    have hll := upsertRow_lastListed tbl u t r hr (by simpa using h)
    cases r
    simp only at hll
    simp [hll]
  · rw [if_neg h]
    rfl

/-- C4: upserting an already-present url refreshes only its `lastListed`
field — its hash and the three status fields are untouched, and every other
row of the shard is unchanged — and the whole operation is idempotent at a
fixed timestamp. -/
theorem C4_upsert_frame_idempotent (s : DBState) (filename u : String)
    (t : Int) (id : Nat) (tbl : List UrlRecord)
    (hlook : lookupFilenameId s filename = some id)
    (htbl : getTable s id = some tbl)
    (hmem : ∃ r ∈ tbl, r.url = u) :
    ∃ s₂, add_URLs [u] t filename s = .ok s₂ ∧
      getTable s₂ id = some (tbl.map (fun r =>
        if r.url == u then { r with lastListed := some t } else r)) ∧
      add_URLs [u] t filename s₂ = .ok s₂ := by
  have hsome : (getTable s id).isSome := by rw [htbl]; rfl
  have hadd : add_URLs [u] t filename s =
      .ok (modifyTable s id (fun tb => upsertRow tb u t)) := by
    unfold add_URLs
    rw [hlook]
    show Except.ok (modifyTable (create_urls_table id s) id fun tb =>
      List.foldl (fun acc v => upsertRow acc v t) tb [u]) = _
    rw [create_urls_table_of_isSome s id hsome]
    rfl
  refine ⟨modifyTable s id (fun tb => upsertRow tb u t), hadd, ?_, ?_⟩
  · rw [getTable_modifyTable, htbl]
    show some (upsertRow tbl u t) = _
    have hany : tbl.any (fun r => r.url == u) = true := by
      rcases hmem with ⟨r, hr, hru⟩
      exact List.any_eq_true.mpr ⟨r, hr, by simp [hru]⟩
    rw [upsertRow, if_pos hany]
  · have hlook2 : lookupFilenameId
        (modifyTable s id (fun tb => upsertRow tb u t)) filename = some id := hlook
    have hsome2 : (getTable (modifyTable s id (fun tb => upsertRow tb u t))
        id).isSome := by
      rw [getTable_modifyTable, htbl]; rfl
    unfold add_URLs
    rw [hlook2]
    show Except.ok (modifyTable
      (create_urls_table id (modifyTable s id fun tb => upsertRow tb u t)) id
      fun tb => List.foldl (fun acc v => upsertRow acc v t) tb [u]) = _
    rw [create_urls_table_of_isSome _ id hsome2]
    show Except.ok (modifyTable (modifyTable s id fun tb => upsertRow tb u t) id
      fun tb => upsertRow tb u t) = _
    rw [modifyTable_modifyTable s id _ _ (fun tb => upsertRow_idem tb u t)]

/-- Witness for C4 at a concrete one-row shard. -/
theorem C4_upsert_frame_idempotent_witness :
    ∃ s₂, add_URLs ["u"] 5 "list1"
        ⟨[(1, "list1")], [(1, [⟨"u", some 1, none, none, none, [9]⟩])], []⟩ =
        .ok s₂ ∧
      getTable s₂ 1 = some ([⟨"u", some 1, none, none, none, [9]⟩].map (fun r =>
        if r.url == "u" then { r with lastListed := some 5 } else r)) ∧
      add_URLs ["u"] 5 "list1" s₂ = .ok s₂ :=
  C4_upsert_frame_idempotent
    ⟨[(1, "list1")], [(1, [⟨"u", some 1, none, none, none, [9]⟩])], []⟩
    "list1" "u" 5 1 [⟨"u", some 1, none, none, none, [9]⟩]
    (by decide) (by decide) ⟨⟨"u", some 1, none, none, none, [9]⟩, by decide, rfl⟩

/-! ## Lemmas about the Bulk Status Updater -/

theorem modifyTable_id (s : DBState) (id : Nat)
    (f : List UrlRecord → List UrlRecord) (h : ∀ tbl, f tbl = tbl) :
    modifyTable s id f = s := by
  unfold modifyTable
  have hmap : s.urls_tables.map
      (fun p => if p.1 == id then (p.1, f p.2) else p) = s.urls_tables := by
    conv_rhs => rw [← List.map_id s.urls_tables]
    apply List.map_congr_left
    intro p _
    by_cases hp : p.1 == id
    · simp [hp, h]
    · simp [hp]
  rw [hmap]

theorem updateWhereIn_nil (upd : UrlRecord → UrlRecord) (tbl : List UrlRecord) :
    updateWhereIn [] upd tbl = tbl := by
  simp [updateWhereIn]

theorem foldl_modify_id (f : List UrlRecord → List UrlRecord)
    (hf : ∀ tbl, f tbl = tbl) :
    ∀ (ids : List Nat) (s : DBState),
      ids.foldl (fun acc id => modifyTable acc id f) s = s
  | [], _ => rfl
  | id :: rest, s => by
      rw [List.foldl_cons, modifyTable_id s id f hf]
      exact foldl_modify_id f hf rest s

theorem updateAllShards_nil (upd : UrlRecord → UrlRecord) (s : DBState) :
    updateAllShards [] upd s = s :=
  foldl_modify_id _ (updateWhereIn_nil upd) (get_urls_tables s) s

/-- C7: an unrecognized vendor makes `update_malicious_URLs` raise
`ValueError` before any shard is written: the store is unchanged and no
fan-out occurs. -/
theorem C7_unknown_vendor_rejected (urls : List String) (t : Int)
    (vendor : String) (s : DBState)
    (h1 : vendor ≠ "Google") (h2 : vendor ≠ "Yandex") :
    update_malicious_URLs urls t vendor s =
      .error "ValueError: vendor must be \"Google\" or \"Yandex\"" := by
  simp [update_malicious_URLs, h1, h2]

/-- Witness for C7 at the concrete vendor `"Bing"`. -/
theorem C7_unknown_vendor_rejected_witness :
    update_malicious_URLs ["u"] 7 "Bing" ⟨[(1, "list1")], [(1, [])], []⟩ =
      .error "ValueError: vendor must be \"Google\" or \"Yandex\"" :=
  C7_unknown_vendor_rejected ["u"] 7 "Bing" ⟨[(1, "list1")], [(1, [])], []⟩
    (by decide) (by decide)

/-- C6 counterexample: with one registered shard, an empty url batch still
makes the updater issue one `UPDATE` whose `IN` list has zero placeholders
(`','.join('?'*0)` is empty) — the claim that no zero-placeholder query is
ever issued is false. -/
theorem C6_zero_placeholder_query_issued :
    update_URLs_issued ([] : List String) ⟨[(1, "list1")], [(1, [])], []⟩ =
      [⟨1, 0, []⟩] := rfl

/-- C6 amended: an empty url batch for either bulk updater performs zero
mutations and raises no error (SQLite evaluates the empty `IN ()` list as
matching no row), though the per-shard queries are still issued. -/
theorem C6_empty_urls_noop (s : DBState) (t : Int) (vendor : String)
    (h : vendor = "Google" ∨ vendor = "Yandex") :
    update_malicious_URLs [] t vendor s = .ok s ∧
    update_activity_URLs [] t s = s := by
  constructor
  · rcases h with rfl | rfl
    · simp [update_malicious_URLs, updateAllShards_nil]
    · simp [update_malicious_URLs, updateAllShards_nil]
  · rw [update_activity_URLs, updateAllShards_nil]

/-- Witness for C6 (amended) at a concrete one-shard, one-row state. -/
theorem C6_empty_urls_noop_witness :
    update_malicious_URLs [] 9 "Google"
      ⟨[(1, "list1")], [(1, [⟨"u", some 1, none, none, none, [9]⟩])], []⟩ =
      .ok ⟨[(1, "list1")], [(1, [⟨"u", some 1, none, none, none, [9]⟩])], []⟩ ∧
    update_activity_URLs [] 9
      ⟨[(1, "list1")], [(1, [⟨"u", some 1, none, none, none, [9]⟩])], []⟩ =
      ⟨[(1, "list1")], [(1, [⟨"u", some 1, none, none, none, [9]⟩])], []⟩ :=
  C6_empty_urls_noop
    ⟨[(1, "list1")], [(1, [⟨"u", some 1, none, none, none, [9]⟩])], []⟩
    9 "Google" (Or.inl rfl)

/-! ## Lemmas about the Suspect Matcher -/

theorem shardQuery_mem (tbl : List UrlRecord) (prefixes : List PrefixEntry)
    (vendor : String) (size : Nat) (u : String) :
    u ∈ shardQuery tbl prefixes vendor size ↔
      ∃ r ∈ tbl, r.url = u ∧ ∃ e ∈ prefixes,
        r.hash.take size = e.hashPrefix ∧ e.vendor = vendor := by
  unfold shardQuery
  rw [List.mem_flatMap]
  constructor
  · rintro ⟨r, hr, hmem⟩
    rcases List.mem_map.mp hmem with ⟨e, he, rfl⟩
    rcases List.mem_filter.mp he with ⟨hep, hcond⟩
    simp only [Bool.and_eq_true, beq_iff_eq] at hcond
    exact ⟨r, hr, rfl, e, hep, hcond.1, hcond.2⟩
  · rintro ⟨r, hr, rfl, e, he, hc1, hc2⟩
    refine ⟨r, hr, List.mem_map.mpr ⟨e, List.mem_filter.mpr ⟨he, ?_⟩, rfl⟩⟩
    simp [hc1, hc2]

theorem identifyLoop_mem (s : DBState) (vendor : String) (sizes : List Nat)
    (u : String) :
    ∀ ids : List Nat, (∀ id ∈ ids, (getTable s id).isSome) →
    (u ∈ identifyLoop s vendor sizes ids ↔
      ∃ id ∈ ids, ∃ tbl, getTable s id = some tbl ∧
        ∃ size ∈ sizes, ∃ r ∈ tbl, r.url = u ∧
          ∃ e ∈ s.maliciousHashPrefixes,
            r.hash.take size = e.hashPrefix ∧ e.vendor = vendor)
  | [], _ => by simp [identifyLoop]
  | id :: rest, h => by
      have hid : (getTable s id).isSome := h id (List.mem_cons_self id rest)
      rcases Option.isSome_iff_exists.mp hid with ⟨tbl, htbl⟩
      rw [identifyLoop, htbl]
      rw [List.mem_append, List.mem_flatMap,
        identifyLoop_mem s vendor sizes u rest
          (fun i hi => h i (List.mem_cons_of_mem id hi))]
      constructor
      · rintro (⟨size, hsize, hq⟩ | ⟨i, hi, rst⟩)
        · rcases (shardQuery_mem tbl _ vendor size u).mp hq with
            ⟨r, hr, hu, e, he, hc1, hc2⟩
          exact ⟨id, List.mem_cons_self id rest, tbl, htbl, size, hsize,
            r, hr, hu, e, he, hc1, hc2⟩
        · exact ⟨i, List.mem_cons_of_mem id hi, rst⟩
      · rintro ⟨i, hi, tbl2, htbl2, size, hsize, r, hr, hu, e, he, hc1, hc2⟩
        rcases List.mem_cons.mp hi with rfl | hi2
        · rw [htbl] at htbl2
          cases htbl2
          exact Or.inl ⟨size, hsize, (shardQuery_mem tbl _ vendor size u).mpr
            ⟨r, hr, hu, e, he, hc1, hc2⟩⟩
        · exact Or.inr ⟨i, hi2, tbl2, htbl2, size, hsize, r, hr, hu, e, he,
            hc1, hc2⟩

theorem take_min_length {α : Type} (l : List α) (n : Nat) :
    l.take (min n l.length) = l.take n := by
  by_cases h : n ≤ l.length
  · rw [Nat.min_eq_left h]
  · have h2 : l.length ≤ n := Nat.le_of_not_le h
    rw [Nat.min_eq_right h2, List.take_length, List.take_of_length_le h2]

/-- Modelled from the spec's contract for `findSuspects(V)`: a url `u` stored
in some shard is a suspect iff `truncate(hash(u), L)` equals some prefix of
length `L` registered for `V`, for at least one `L` among the distinct prefix
lengths of `V`. -/
def findSuspectsSpec (s : DBState) (vendor : String) (u : String) : Prop :=
  ∃ id ∈ get_urls_tables s, ∃ tbl, getTable s id = some tbl ∧
    ∃ r ∈ tbl, r.url = u ∧
      ∃ L ∈ distinctPrefixSizes s vendor,
        ∃ e ∈ s.maliciousHashPrefixes, e.vendor = vendor ∧
          e.hashPrefix.length = L ∧ r.hash.take L = e.hashPrefix

/-- C1: over any state whose registered shard tables all exist and whose
prefix rows carry their true byte length (the invariant
`add_maliciousHashPrefixes` establishes), `identify_suspected_urls` returns a
url exactly when the first `L` bytes of its stored hash equal some stored
prefix of length `L` of the vendor, for some distinct stored prefix length
`L`. -/
theorem C1_suspect_matcher (s : DBState) (vendor u : String)
    (hwf : ∀ id ∈ get_urls_tables s, (getTable s id).isSome)
    (hsz : ∀ e ∈ s.maliciousHashPrefixes, e.prefixSize = e.hashPrefix.length) :
    u ∈ identify_suspected_urls vendor s ↔ findSuspectsSpec s vendor u := by
  rw [identify_suspected_urls,
    identifyLoop_mem s vendor (distinctPrefixSizes s vendor) u
      (get_urls_tables s) hwf]
  constructor
  · rintro ⟨id, hid, tbl, htbl, size, hsize, r, hr, hu, e, he, hc1, hc2⟩
    refine ⟨id, hid, tbl, htbl, r, hr, hu, e.hashPrefix.length, ?_, e, he,
      hc2, rfl, ?_⟩
    · have hmem : e.prefixSize ∈ distinctPrefixSizes s vendor := by
        unfold distinctPrefixSizes
        rw [List.mem_dedup]
        exact List.mem_map_of_mem _
          (List.mem_filter.mpr ⟨he, by simp [hc2]⟩)
      rw [← hsz e he]
      exact hmem
    · rw [← hc1, List.length_take, take_min_length]
  · rintro ⟨id, hid, tbl, htbl, r, hr, hu, L, hL, e, he, hv, hlen, htake⟩
    exact ⟨id, hid, tbl, htbl, L, hL, r, hr, hu, e, he, htake, hv⟩

/-- Witness for C1 at a concrete one-shard state with one stored url and one
matching Google prefix. -/
theorem C1_suspect_matcher_witness :
    "u" ∈ identify_suspected_urls "Google"
        ⟨[(1, "list1")], [(1, [⟨"u", none, none, none, none, [10, 20, 30]⟩])],
         [⟨[10, 20], 2, "Google"⟩]⟩ ↔
      findSuspectsSpec
        ⟨[(1, "list1")], [(1, [⟨"u", none, none, none, none, [10, 20, 30]⟩])],
         [⟨[10, 20], 2, "Google"⟩]⟩ "Google" "u" :=
  C1_suspect_matcher
    ⟨[(1, "list1")], [(1, [⟨"u", none, none, none, none, [10, 20, 30]⟩])],
     [⟨[10, 20], 2, "Google"⟩]⟩ "Google" "u" (by decide) (by decide)

/-- C2 (code bug demonstration): a state in which the first registered
shard's table is missing — querying it raises an `apsw.Error`, which
`identify_suspected_urls` catches, logs and swallows.  The run returns `[]`
even though the second shard holds a url matching a registered Google prefix,
and `[]` is also exactly what a clean empty store returns: the caller cannot
distinguish the failed run from "no matches found". -/
theorem C2_storage_error_swallowed :
    identify_suspected_urls "Google"
      ⟨[(1, "a"), (2, "b")],
       [(2, [⟨"u", none, none, none, none, [10, 20, 30]⟩])],
       [⟨[10, 20], 2, "Google"⟩]⟩ = [] ∧
    findSuspectsSpec
      ⟨[(1, "a"), (2, "b")],
       [(2, [⟨"u", none, none, none, none, [10, 20, 30]⟩])],
       [⟨[10, 20], 2, "Google"⟩]⟩ "Google" "u" ∧
    identify_suspected_urls "Google" ⟨[], [], []⟩ = [] := by
  refine ⟨rfl, ?_, rfl⟩
  exact ⟨2, by decide, [⟨"u", none, none, none, none, [10, 20, 30]⟩], rfl,
    ⟨"u", none, none, none, none, [10, 20, 30]⟩, by decide, rfl,
    2, by decide, ⟨[10, 20], 2, "Google"⟩, by decide, rfl, rfl, rfl⟩
